import Mathlib

/-!
# Verification of the daily puzzle resolution pipeline

Shallow embedding of `src/app/api/puzzle/route.ts` (a Next.js route that
resolves the daily NYT Connections puzzle from a primary source, with a
GitHub-archive fallback), together with proofs of the specification claims.

Modelling conventions:
* Calendar date strings `"YYYY-MM-DD"` are modelled as parsed triples
  (`CivilDate`).  JavaScript `new Date("YYYY-MM-DD").getTime()` yields the
  UTC-midnight timestamp of the Gregorian date, i.e. `86400000 *` the number
  of days since 1970-01-01; `civilRank`/`daysFromCivil` below implement the
  standard days-from-civil computation, so `dateTimeMs` is exactly that
  timestamp.
* Optional string fields are `Option String`; JavaScript truthiness of such
  a field (`undefined`, `null` and `""` are falsy) is `strTruthy`.
* `fetch` plus JSON decoding is modelled by its outcome: `none` stands for
  any transport, status or decode failure (the `try`/`catch` and the
  `!response.ok` early return), `some doc` for a well-typed document.
* JavaScript's stable `Array.prototype.sort` with comparator
  `(a, b) => k a - k b` is `List.mergeSort` with `fun a b => k a ≤ k b`
  (Lean's `mergeSort` is stable and keeps the left element on ties, exactly
  as a stable ascending sort does when the comparator returns 0).
* A JavaScript object used as a string-keyed map is an association list;
  assignment `m[k] = v` overwrites an existing binding in place and
  otherwise appends (`mapAssign`).
-/

/-- A parsed `YYYY-MM-DD` calendar date. -/
structure CivilDate where
  year : Nat
  month : Nat
  day : Nat
deriving DecidableEq, Repr

/-- Leap year in the (proleptic) Gregorian calendar, as implemented by the
JavaScript `Date` the route relies on. -/
def isLeapYear (y : Nat) : Bool :=
  (y % 4 == 0 && y % 100 != 0) || y % 400 == 0

/-- Number of days of month `m` of year `y`. -/
def daysInMonth (y m : Nat) : Nat :=
  if m = 2 then (if isLeapYear y then 29 else 28)
  else if m = 4 ∨ m = 6 ∨ m = 9 ∨ m = 11 then 30
  else 31

/-- A `CivilDate` that denotes a real calendar day (year at least 1). -/
def CivilDate.Valid (dt : CivilDate) : Prop :=
  1 ≤ dt.year ∧ 1 ≤ dt.month ∧ dt.month ≤ 12 ∧ 1 ≤ dt.day ∧
    dt.day ≤ daysInMonth dt.year dt.month

instance (dt : CivilDate) : Decidable dt.Valid := by
  unfold CivilDate.Valid; infer_instance

/-- Strict calendar (chronological) order on civil dates: lexicographic on
(year, month, day). -/
def CivilDate.before (d1 d2 : CivilDate) : Prop :=
  d1.year < d2.year ∨
    (d1.year = d2.year ∧
      (d1.month < d2.month ∨ (d1.month = d2.month ∧ d1.day < d2.day)))

instance (d1 d2 : CivilDate) : Decidable (d1.before d2) := by
  unfold CivilDate.before; infer_instance

/-- Rank of a civil date: days since 0000-03-01 (standard days-from-civil
computation, before the epoch shift).  All intermediate arithmetic is on
`Nat`, matching the algorithm's use of floor division on nonnegative
quantities. -/
def civilRank (y m d : Nat) : Nat :=
  let ys := if m ≤ 2 then y - 1 else y
  let era := ys / 400
  let yoe := ys - era * 400
  let mp := (m + 9) % 12
  let doy := (153 * mp + 2) / 5 + d - 1
  let doe := yoe * 365 + yoe / 4 - yoe / 100 + doy
  era * 146097 + doe

/-- Days from 1970-01-01 (the Unix epoch) to the given civil date. -/
def daysFromCivil (dt : CivilDate) : Int :=
  (civilRank dt.year dt.month dt.day : Int) - 719468

/-- The value `new Date(dateStr).getTime()` for a `YYYY-MM-DD` string: milliseconds
since the Unix epoch at UTC midnight of that date. -/
def dateTimeMs (dt : CivilDate) : Int :=
  86400000 * daysFromCivil dt

/-- The launch date of Connections, puzzle #1 (`new Date("2023-06-12")`). -/
def launchDate : CivilDate := ⟨2023, 6, 12⟩

/-- The function `calculatePuzzleNumber` from the route: floor of the millisecond
difference to the launch date divided by one day's milliseconds, plus one.
`Int.fdiv` is `Math.floor` of the rational quotient. -/
def calculatePuzzleNumber (dt : CivilDate) : Int :=
  Int.fdiv (dateTimeMs dt - dateTimeMs launchDate) 86400000 + 1

/-- JavaScript truthiness of an optional string field: `undefined` and `""`
are falsy. -/
def strTruthy : Option String → Bool
  | none => false
  | some s => s != ""

/-- JavaScript `a || b` on two optional strings, as used for string defaults: the first
truthy value, as a `String` (`getD ""` is safe because the branch is only
read when truthy). -/
def orElseStr (a b : Option String) : String :=
  if strTruthy a then a.getD "" else if strTruthy b then b.getD "" else ""

/-- One card of the primary (NYT) document (`interface NYTCard`). -/
structure NYTCard where
  content : Option String
  image_url : Option String
  image_alt_text : Option String
  position : Nat
deriving DecidableEq, Repr

/-- One category of the primary document (`interface NYTCategory`; the
`title` field is never read by the route and is omitted). -/
structure NYTCategory where
  cards : List NYTCard
deriving DecidableEq, Repr

/-- The primary document (`interface NYTPuzzleResponse`; the provider's
internal `id` field is never read by the route and is omitted). -/
structure NYTPuzzleResponse where
  print_date : CivilDate
  categories : List NYTCategory
deriving DecidableEq, Repr

/-- One answer group of a fallback archive entry. -/
structure GitHubAnswer where
  level : Nat
  group : String
  members : List String
deriving DecidableEq, Repr

/-- One archive entry (`interface GitHubPuzzle`; the unused `id` field is
omitted). -/
structure GitHubPuzzle where
  date : CivilDate
  answers : List GitHubAnswer
deriving DecidableEq, Repr

/-- The canonical puzzle crossing the boundary (`interface PuzzleData`).
`imageMap` is an insertion-ordered association list standing for the
JavaScript object `Record<string, string>`. -/
structure PuzzleData where
  id : Int
  date : CivilDate
  words : List String
  imageMap : Option (List (String × String))
deriving DecidableEq, Repr

/-- JavaScript object assignment `m[k] = v`: overwrite the binding in place
when the key exists, otherwise append. -/
def mapAssign (m : List (String × String)) (k v : String) :
    List (String × String) :=
  if m.any (fun p => p.1 = k) then
    m.map (fun p => if p.1 = k then (k, v) else p)
  else m ++ [(k, v)]

/-- All cards of the document, categories flattened in order (the
`allCards.push(...category.cards)` loop). -/
def allCardsOf (data : NYTPuzzleResponse) : List NYTCard :=
  data.categories.flatMap (fun c => c.cards)

/-- Model of `allCards.sort((a, b) => a.position - b.position)`: stable
ascending sort by position. -/
def sortedCardsOf (data : NYTPuzzleResponse) : List NYTCard :=
  (allCardsOf data).mergeSort (fun a b => a.position ≤ b.position)

/-- Model of `allCards.some(card => card.image_url)`. -/
def isPicturePuzzleOf (data : NYTPuzzleResponse) : Bool :=
  (sortedCardsOf data).any (fun card => strTruthy card.image_url)

/-- The word derived for one card (the body of the `allCards.map` arrow). -/
def deriveWord (isPic : Bool) (card : NYTCard) : String :=
  if isPic ∧ strTruthy card.image_alt_text then
    (card.image_alt_text.getD "").toUpper
  else
    (orElseStr card.content card.image_alt_text).toUpper

/-- The image map built for picture puzzles: for every card with both an
image URL and alt text, assign `uppercase(alt) -> url` into the object. -/
def buildImageMap (cards : List NYTCard) : List (String × String) :=
  cards.foldl
    (fun m card =>
      if strTruthy card.image_url ∧ strTruthy card.image_alt_text then
        mapAssign m (card.image_alt_text.getD "").toUpper
          (card.image_url.getD "")
      else m)
    []

/-- The adapter `fetchFromNYT`, with the transport/decode outcome made
explicit:
`resp = none` is any failed or undecodable response, `resp = some data` a
well-typed document. -/
def fetchFromNYT (resp : Option NYTPuzzleResponse) : Option PuzzleData :=
  match resp with
  | none => none
  | some data =>
    let allCards := sortedCardsOf data
    let isPicturePuzzle := isPicturePuzzleOf data
    let words := allCards.map (deriveWord isPicturePuzzle)
    let imageMap : Option (List (String × String)) :=
      if isPicturePuzzle then some (buildImageMap allCards) else none
    some { id := calculatePuzzleNumber data.print_date
           date := data.print_date
           words := words
           imageMap := imageMap }

/-- Archive entry selection: the first entry whose `date` equals `today`,
else (archive nonempty) the head of the archive sorted descending by
`new Date(date).getTime()` (`puzzles.find` / `sorted[0]`). -/
def selectEntry (today : CivilDate) (puzzles : List GitHubPuzzle) :
    Option GitHubPuzzle :=
  match puzzles.find? (fun p => p.date = today) with
  | some p => some p
  | none =>
    if puzzles.length > 0 then
      (puzzles.mergeSort
        (fun a b => dateTimeMs b.date ≤ dateTimeMs a.date)).head?
    else none

/-- The word list built from one archive entry: sort the answer groups
ascending by `level`, then for each row index `0..3` push the uppercased
member of each group at that index when it is truthy. -/
def buildGitHubWords (answers : List GitHubAnswer) : List String :=
  let sortedAnswers := answers.mergeSort (fun a b => a.level ≤ b.level)
  (List.range 4).flatMap (fun i =>
    sortedAnswers.filterMap (fun answer =>
      if (answer.members.getD i "") != "" then
        some (answer.members.getD i "").toUpper
      else none))

/-- The adapter `fetchFromGitHub`, with the transport/decode outcome made
explicit:
`resp = none` is any failed or undecodable response, `resp = some puzzles`
the decoded archive array. -/
def fetchFromGitHub (today : CivilDate)
    (resp : Option (List GitHubPuzzle)) : Option PuzzleData :=
  match resp with
  | none => none
  | some puzzles =>
    match selectEntry today puzzles with
    | none => none
    | some puzzle =>
      some { id := calculatePuzzleNumber puzzle.date
             date := puzzle.date
             words := buildGitHubWords puzzle.answers
             imageMap := none }

/-- The upstream world one `GET` call observes: the outcome of each of the
two requests the orchestrator may make. -/
structure UpstreamEnv where
  nytResp : Option NYTPuzzleResponse
  githubResp : Option (List GitHubPuzzle)
deriving Repr

/-- What a `GET` call returns: a JSON 200 with the puzzle, or the uniform
error payload (error indicator, manual-entry message, HTTP status). -/
inductive GETResult where
  | ok (p : PuzzleData)
  | err (error message : String) (status : Nat)
deriving DecidableEq, Repr

/-- The `GET` orchestrator, together with the number of times the fallback
adapter was invoked.  Primary first; fallback only when the primary
produced nothing; uniform error payload when both fail. -/
def GETmodel (today : CivilDate) (env : UpstreamEnv) : GETResult × Nat :=
  let primary := fetchFromNYT env.nytResp
  let (puzzleData, fallbackCalls) :=
    match primary with
    | some p => (some p, 0)
    | none => (fetchFromGitHub today env.githubResp, 1)
  match puzzleData with
  | some p => (GETResult.ok p, fallbackCalls)
  | none =>
    (GETResult.err "Failed to fetch today's puzzle"
      "Please enter words manually using the Edit button" 500, fallbackCalls)

/-- The word-derivation priority as the specification words it: alt text
when the puzzle is a picture puzzle and alt text is present, else textual
content, else alt text, else the empty string (before uppercasing).  Stated
from the spec, to be compared with `deriveWord` from the source. -/
def specWordSource (isPic : Bool) (card : NYTCard) : String :=
  if isPic ∧ strTruthy card.image_alt_text then card.image_alt_text.getD ""
  else if strTruthy card.content then card.content.getD ""
  else if strTruthy card.image_alt_text then card.image_alt_text.getD ""
  else ""

/-- A syntactically well-formed primary document holding a single card:
fewer than 16 words can be resolved from it. -/
def oneCardDoc : NYTPuzzleResponse :=
  ⟨⟨2023, 6, 13⟩, [⟨[⟨some "solo", none, none, 0⟩]⟩]⟩

/-- Number of truthy member slots of an archive entry's answer groups over
row indices `0..3`: the number of words the fallback adapter resolves. -/
def countResolvedSlots (answers : List GitHubAnswer) : Nat :=
  ((List.range 4).map (fun i =>
    (answers.filter (fun a => (a.members.getD i "") != "")).length)).sum

/-- A primary document holding a single picture card (truthy image URL and
alt text). -/
def picDoc : NYTPuzzleResponse :=
  ⟨⟨2023, 6, 13⟩, [⟨[⟨none, some "u1", some "cat", 0⟩]⟩]⟩

/-! ## Calendar arithmetic lemmas -/

theorem civilRank_day (y m d : Nat) (hd : 1 ≤ d) :
    civilRank y m d = civilRank y m 1 + (d - 1) := by
  simp only [civilRank]
  split <;> omega

theorem civilRank_month_step (y m : Nat) (hy : 1 ≤ y) (hm1 : 1 ≤ m)
    (hm : m ≤ 11) :
    civilRank y (m + 1) 1 = civilRank y m (daysInMonth y m) + 1 := by
  interval_cases m <;>
    simp only [civilRank, daysInMonth, isLeapYear] <;>
    simp only [Bool.or_eq_true, Bool.and_eq_true, beq_iff_eq, bne_iff_ne,
      decide_eq_true_eq] <;>
    norm_num <;>
    first
      | omega
      | (split <;> omega)

theorem civilRank_year_step (y : Nat) (hy : 1 ≤ y) :
    civilRank (y + 1) 1 1 = civilRank y 12 31 + 1 := by
  simp only [civilRank]
  norm_num
  omega

theorem daysInMonth_pos (y m : Nat) : 1 ≤ daysInMonth y m := by
  simp only [daysInMonth]
  split <;> [split; split] <;> omega

theorem civilRank_month_le (y : Nat) (hy : 1 ≤ y) {a b : Nat} (ha : 1 ≤ a)
    (hab : a ≤ b) (hb : b ≤ 12) : civilRank y a 1 ≤ civilRank y b 1 := by
  induction b, hab using Nat.le_induction with
  | base => exact Nat.le_refl _
  | succ b hab ih =>
    have hb' : b ≤ 11 := by omega
    have h1 := civilRank_month_step y b hy (by omega) hb'
    have h2 := civilRank_day y b (daysInMonth y b) (daysInMonth_pos y b)
    have := ih (by omega)
    omega

theorem civilRank_le_year_end (y m d : Nat) (hy : 1 ≤ y) (hm1 : 1 ≤ m)
    (hm : m ≤ 12) (hd1 : 1 ≤ d) (hd : d ≤ daysInMonth y m) :
    civilRank y m d ≤ civilRank y 12 31 := by
  rcases Nat.eq_or_lt_of_le hm with h12 | hlt
  · subst h12
    have h1 := civilRank_day y 12 d hd1
    have h2 := civilRank_day y 12 31 (by omega)
    have : daysInMonth y 12 = 31 := by simp [daysInMonth]
    omega
  · have h1 := civilRank_day y m d hd1
    have h2 := civilRank_day y m (daysInMonth y m) (daysInMonth_pos y m)
    have h3 := civilRank_month_step y m hy hm1 (by omega)
    have h4 := civilRank_month_le y hy (a := m + 1) (b := 12) (by omega)
      (by omega) (by omega)
    have h5 := civilRank_day y 12 31 (by omega)
    have h6 := civilRank_month_le y hy (a := 12) (b := 12) (by omega)
      (by omega) (by omega)
    omega

theorem civilRank_year_start_le (y m d : Nat) (hy : 1 ≤ y) (hm1 : 1 ≤ m)
    (hm : m ≤ 12) (hd1 : 1 ≤ d) :
    civilRank y 1 1 ≤ civilRank y m d := by
  have h1 := civilRank_month_le y hy (a := 1) (b := m) (by omega) hm1 hm
  have h2 := civilRank_day y m d hd1
  omega

theorem civilRank_year_le (y y' : Nat) (hy : 1 ≤ y) (hyy : y ≤ y') :
    civilRank y 1 1 ≤ civilRank y' 1 1 := by
  induction y', hyy using Nat.le_induction with
  | base => exact Nat.le_refl _
  | succ y' hyy ih =>
    have h1 := civilRank_le_year_end y' 1 1 (by omega) (by omega) (by omega)
      (by omega) (by simp [daysInMonth])
    have h2 := civilRank_year_step y' (by omega)
    omega

theorem civilRank_lt_of_before {d1 d2 : CivilDate} (h1 : d1.Valid)
    (h2 : d2.Valid) (h : d1.before d2) :
    civilRank d1.year d1.month d1.day < civilRank d2.year d2.month d2.day := by
  obtain ⟨y1, m1, a1⟩ := d1
  obtain ⟨y2, m2, a2⟩ := d2
  obtain ⟨hy1, hm1a, hm1b, hd1a, hd1b⟩ := h1
  obtain ⟨hy2, hm2a, hm2b, hd2a, hd2b⟩ := h2
  simp only [CivilDate.before] at h
  simp only at *
  rcases h with hy | ⟨hy, hm | ⟨hm, hd⟩⟩
  · -- strictly earlier year
    have ha := civilRank_le_year_end y1 m1 a1 hy1 hm1a hm1b hd1a hd1b
    have hb := civilRank_year_step y1 hy1
    have hc := civilRank_year_le (y1 + 1) y2 (by omega) (by omega)
    have hd := civilRank_year_start_le y2 m2 a2 hy2 hm2a hm2b hd2a
    omega
  · -- same year, strictly earlier month
    subst hy
    have ha := civilRank_day y1 m1 a1 hd1a
    have hb := civilRank_day y1 m1 (daysInMonth y1 m1) (daysInMonth_pos _ _)
    have hc := civilRank_month_step y1 m1 hy1 hm1a (by omega)
    have hd := civilRank_month_le y1 hy1 (a := m1 + 1) (b := m2) (by omega)
      (by omega) hm2b
    have he := civilRank_day y1 m2 a2 hd2a
    omega
  · -- same year and month, strictly earlier day
    subst hy; subst hm
    have ha := civilRank_day y1 m1 a1 hd1a
    have hb := civilRank_day y1 m1 a2 hd2a
    omega

/-- The map `daysFromCivil` is strictly monotone with respect to calendar
order on valid dates. -/
theorem daysFromCivil_lt_of_before {d1 d2 : CivilDate} (h1 : d1.Valid)
    (h2 : d2.Valid) (h : d1.before d2) :
    daysFromCivil d1 < daysFromCivil d2 := by
  have := civilRank_lt_of_before h1 h2 h
  simp only [daysFromCivil]
  omega

/-- The puzzle number is the whole-day difference from the launch date,
plus one (the millisecond difference is an exact multiple of one day, so
the `Math.floor` division is exact). -/
theorem calculatePuzzleNumber_eq (dt : CivilDate) :
    calculatePuzzleNumber dt =
      daysFromCivil dt - daysFromCivil launchDate + 1 := by
  have h : dateTimeMs dt - dateTimeMs launchDate =
      86400000 * (daysFromCivil dt - daysFromCivil launchDate) := by
    simp only [dateTimeMs]; ring
  rw [calculatePuzzleNumber, h, Int.mul_fdiv_cancel_left _ (by norm_num)]

/-! ## Sorting helper lemmas -/

/-- A stable sort by a `Nat` key sends any list to the unique arrangement
that is strictly sorted by the key, whenever such an arrangement exists
(keys all distinct). -/
theorem mergeSort_eq_of_perm_sorted {α : Type} (key : α → Nat)
    {l tgt : List α} (hperm : l.Perm tgt)
    (hsorted : tgt.Pairwise (fun a b => key a < key b)) :
    l.mergeSort (fun a b => key a ≤ key b) = tgt := by
  haveI : IsAntisymm α (fun a b => key a < key b) :=
    ⟨fun a b h h' => absurd h (Nat.lt_asymm h')⟩
  have h1 : (l.mergeSort (fun a b => key a ≤ key b)).Perm tgt :=
    (List.mergeSort_perm l _).trans hperm
  have hs := @List.sorted_mergeSort _ (fun a b => key a ≤ key b)
    (fun a b c hab hbc => by
      simp only [decide_eq_true_eq] at *; omega)
    (fun a b => by
      simp only [Bool.or_eq_true, decide_eq_true_eq]; omega)
    l
  have hne : (l.mergeSort (fun a b => key a ≤ key b)).Pairwise
      (fun a b => key a ≠ key b) := by
    have hsymm : Symmetric (fun a b : α => key a ≠ key b) :=
      fun a b h => h.symm
    exact (h1.pairwise_iff @hsymm).mpr (hsorted.imp fun h => Nat.ne_of_lt h)
  have hstrict : (l.mergeSort (fun a b => key a ≤ key b)).Pairwise
      (fun a b => key a < key b) := by
    have := hs.and hne
    exact this.imp (fun h => by
      obtain ⟨h1, h2⟩ := h
      simp only [decide_eq_true_eq] at h1
      omega)
  exact List.eq_of_perm_of_sorted h1 hstrict hsorted

/-- The sorted card list of a document is sorted by `position` (over the
Boolean comparator the route passes to `sort`). -/
theorem sortedCardsOf_pairwise (data : NYTPuzzleResponse) :
    (sortedCardsOf data).Pairwise (fun a b => a.position ≤ b.position) := by
  have hs := @List.sorted_mergeSort _
    (fun a b : NYTCard => a.position ≤ b.position)
    (fun a b c hab hbc => by
      simp only [decide_eq_true_eq] at *; omega)
    (fun a b => by
      simp only [Bool.or_eq_true, decide_eq_true_eq]; omega)
    (allCardsOf data)
  exact hs.imp (fun h => by simpa using h)

/-! ## Claims -/

/-- C6: for every calendar date at or after 2023-06-12, the sequence number
computed by `calculatePuzzleNumber` equals the floored whole-day difference
from 2023-06-12 plus one; it maps 2023-06-12 to 1 and 2023-06-13 to 2, and
it is strictly increasing in its date argument. -/
theorem C6_puzzle_number :
    (∀ dt : CivilDate,
      calculatePuzzleNumber dt =
        daysFromCivil dt - daysFromCivil launchDate + 1) ∧
    calculatePuzzleNumber ⟨2023, 6, 12⟩ = 1 ∧
    calculatePuzzleNumber ⟨2023, 6, 13⟩ = 2 ∧
    (∀ d1 d2 : CivilDate, d1.Valid → d2.Valid → ¬ d1.before launchDate →
      d1.before d2 → calculatePuzzleNumber d1 < calculatePuzzleNumber d2) := by
  refine ⟨calculatePuzzleNumber_eq, by decide, by decide, ?_⟩
  intro d1 d2 h1 h2 _ hlt
  rw [calculatePuzzleNumber_eq, calculatePuzzleNumber_eq]
  have := daysFromCivil_lt_of_before h1 h2 hlt
  omega

/-- Witness for C6 at concrete dates. -/
theorem C6_witness :
    calculatePuzzleNumber ⟨2023, 7, 1⟩ < calculatePuzzleNumber ⟨2024, 2, 29⟩ :=
  C6_puzzle_number.2.2.2 ⟨2023, 7, 1⟩ ⟨2024, 2, 29⟩ (by decide) (by decide)
    (by decide) (by decide)

/-- C9: resolution is deterministic in its inputs: with the same current
date and the same upstream responses, two resolutions return the same
result, and in particular any two produced puzzles agree on `id`, `date`,
`words` and `imageMap`. -/
theorem C9_resolution_deterministic :
    ∀ (today : CivilDate) (env1 env2 : UpstreamEnv),
      env1.nytResp = env2.nytResp → env1.githubResp = env2.githubResp →
      GETmodel today env1 = GETmodel today env2 ∧
      ∀ p1 p2, (GETmodel today env1).1 = GETResult.ok p1 →
        (GETmodel today env2).1 = GETResult.ok p2 →
        p1.id = p2.id ∧ p1.date = p2.date ∧ p1.words = p2.words ∧
          p1.imageMap = p2.imageMap := by
  intro today env1 env2 h1 h2
  have he : env1 = env2 := by cases env1; cases env2; simp_all
  subst he
  refine ⟨rfl, ?_⟩
  intro p1 p2 hp1 hp2
  rw [hp1] at hp2
  injection hp2 with h
  subst h
  exact ⟨rfl, rfl, rfl, rfl⟩

/-- Witness for C9 at a concrete environment. -/
theorem C9_witness :
    GETmodel ⟨2023, 6, 13⟩ ⟨none, none⟩ = GETmodel ⟨2023, 6, 13⟩ ⟨none, none⟩ :=
  (C9_resolution_deterministic ⟨2023, 6, 13⟩ ⟨none, none⟩ ⟨none, none⟩ rfl
    rfl).1

/-- C2: the orchestrator returns the primary puzzle without invoking the
fallback when the primary succeeds; invokes the fallback exactly once when
the primary fails; returns the uniform error payload when both fail; and
always returns either a puzzle or that uniform payload (it never raises:
`GETmodel` is a total function into `GETResult`). -/
theorem C2_orchestrator_control_flow :
    ∀ (today : CivilDate) (env : UpstreamEnv),
      (∀ p, fetchFromNYT env.nytResp = some p →
        GETmodel today env = (GETResult.ok p, 0)) ∧
      (fetchFromNYT env.nytResp = none →
        (GETmodel today env).2 = 1 ∧
        (∀ q, fetchFromGitHub today env.githubResp = some q →
          GETmodel today env = (GETResult.ok q, 1)) ∧
        (fetchFromGitHub today env.githubResp = none →
          GETmodel today env =
            (GETResult.err "Failed to fetch today's puzzle"
              "Please enter words manually using the Edit button" 500, 1))) ∧
      ((∃ p, (GETmodel today env).1 = GETResult.ok p) ∨
        (GETmodel today env).1 =
          GETResult.err "Failed to fetch today's puzzle"
            "Please enter words manually using the Edit button" 500) := by
  intro today env
  refine ⟨?_, ?_, ?_⟩
  · intro p hp
    simp [GETmodel, hp]
  · intro hn
    rcases hg : fetchFromGitHub today env.githubResp with _ | q
    · refine ⟨by simp [GETmodel, hn, hg], ?_, by intro _; simp [GETmodel, hn, hg]⟩
      intro q hq
      exact Option.noConfusion hq
    · refine ⟨by simp [GETmodel, hn, hg], ?_, ?_⟩
      · intro q' hq'
        injection hq' with h
        subst h
        simp [GETmodel, hn, hg]
      · intro hq'
        exact Option.noConfusion hq'
  · rcases hp : fetchFromNYT env.nytResp with _ | p
    · rcases hg : fetchFromGitHub today env.githubResp with _ | q
      · right; simp [GETmodel, hp, hg]
      · left; exact ⟨q, by simp [GETmodel, hp, hg]⟩
    · left; exact ⟨p, by simp [GETmodel, hp]⟩

/-- Witness for C2 at a concrete environment where both sources fail. -/
theorem C2_witness :
    GETmodel ⟨2023, 6, 13⟩ ⟨none, none⟩ =
      (GETResult.err "Failed to fetch today's puzzle"
        "Please enter words manually using the Edit button" 500, 1) :=
  ((C2_orchestrator_control_flow ⟨2023, 6, 13⟩ ⟨none, none⟩).2.1
    (by rfl)).2.2 (by rfl)

/-- A `filterMap` whose function is an if-then-some-else-none is a `filter`
followed by a `map`. -/
theorem filterMap_ite_eq_map_filter {α β : Type} (P : α → Bool) (g : α → β)
    (l : List α) :
    l.filterMap (fun a => if P a then some (g a) else none) =
      (l.filter P).map g := by
  induction l with
  | nil => rfl
  | cons x xs ih =>
    by_cases h : P x <;>
      simp [List.filterMap_cons, List.filter_cons, h, ih]

/-- The number of words the fallback builds from an entry is the number of
truthy member slots over row indices `0..3`. -/
theorem buildGitHubWords_length (answers : List GitHubAnswer) :
    (buildGitHubWords answers).length = countResolvedSlots answers := by
  simp only [buildGitHubWords, countResolvedSlots, List.length_flatMap]
  congr 1
  apply List.map_congr_left
  intro i _
  simp only [Function.comp_apply]
  rw [filterMap_ite_eq_map_filter
    (fun answer : GitHubAnswer => (answer.members.getD i "") != "")
    (fun answer : GitHubAnswer => (answer.members.getD i "").toUpper)]
  rw [List.length_map]
  exact ((List.mergeSort_perm answers _).filter _).length_eq

/-- C1 counterexample: on a syntactically valid primary document holding a
single card the primary adapter still produces a puzzle, and its `words`
sequence does not have 16 elements. -/
theorem C1_counterexample_no_length_check :
    (fetchFromNYT (some oneCardDoc)).isSome = true ∧
    (fetchFromNYT (some oneCardDoc)).map (fun p => p.words.length) ≠
      some 16 ∧
    (fetchFromNYT (some oneCardDoc)).map (fun p => p.words.length) =
      some 1 := by
  refine ⟨?_, ?_, ?_⟩ <;>
    simp [fetchFromNYT, oneCardDoc, allCardsOf, sortedCardsOf,
      isPicturePuzzleOf, strTruthy]

/-- C1 amended: neither adapter checks the resolved word count.  The
primary adapter always produces a puzzle with exactly one word per card of
the document, and the fallback adapter, once it selects an entry, produces
a puzzle with exactly one word per truthy member slot — in both cases even
when that count is less than 16. -/
theorem C1_amended_no_length_requirement :
    (∀ data : NYTPuzzleResponse, ∃ p,
      fetchFromNYT (some data) = some p ∧
      p.words.length = (allCardsOf data).length) ∧
    (∀ (today : CivilDate) (puzzles : List GitHubPuzzle) (e : GitHubPuzzle),
      selectEntry today puzzles = some e →
      ∃ p, fetchFromGitHub today (some puzzles) = some p ∧
        p.words.length = countResolvedSlots e.answers) := by
  constructor
  · intro data
    refine ⟨_, rfl, ?_⟩
    simp only [List.length_map]
    exact (List.mergeSort_perm (allCardsOf data) _).length_eq
  · intro today puzzles e he
    simp only [fetchFromGitHub, he]
    exact ⟨_, rfl, buildGitHubWords_length e.answers⟩

/-- Witness for the amended C1 on a concrete one-entry archive. -/
theorem C1_amended_witness :
    ∃ p, fetchFromGitHub ⟨2023, 6, 13⟩
        (some [⟨⟨2023, 6, 13⟩, [⟨1, "g", ["w1", "w2"]⟩]⟩]) = some p ∧
      p.words.length =
        countResolvedSlots [⟨1, "g", ["w1", "w2"]⟩] :=
  C1_amended_no_length_requirement.2 ⟨2023, 6, 13⟩
    [⟨⟨2023, 6, 13⟩, [⟨1, "g", ["w1", "w2"]⟩]⟩]
    ⟨⟨2023, 6, 13⟩, [⟨1, "g", ["w1", "w2"]⟩]⟩ (by decide)

/-- C8: the word derived for every card follows the claimed priority —
alt text when the puzzle is a picture puzzle and alt text is truthy, else
textual content, else alt text, else the empty string — always uppercased;
and the produced `words` sequence is exactly the derivation mapped over
the position-sorted cards. -/
theorem C8_word_priority :
    (∀ (isPic : Bool) (card : NYTCard),
      deriveWord isPic card = (specWordSource isPic card).toUpper) ∧
    (∀ (data : NYTPuzzleResponse) (p : PuzzleData),
      fetchFromNYT (some data) = some p →
      p.words = (sortedCardsOf data).map
        (deriveWord (isPicturePuzzleOf data))) := by
  constructor
  · intro isPic card
    simp only [deriveWord, specWordSource, orElseStr]
    split
    · rfl
    · split
      · rfl
      · split
        · rfl
        · rfl
  · intro data p hp
    injection hp with h
    subst h
    rfl

/-- Witness for C8 on the concrete one-card document. -/
theorem C8_witness :
    (⟨2, ⟨2023, 6, 13⟩, ["solo".toUpper], none⟩ : PuzzleData).words =
      (sortedCardsOf oneCardDoc).map
        (deriveWord (isPicturePuzzleOf oneCardDoc)) :=
  C8_word_priority.2 oneCardDoc ⟨2, ⟨2023, 6, 13⟩, ["solo".toUpper], none⟩
    (by
      simp [fetchFromNYT, oneCardDoc, allCardsOf, sortedCardsOf,
        isPicturePuzzleOf, strTruthy, deriveWord, orElseStr]
      decide)

/-- C3: the primary adapter flattens all cards across all categories and
produces words in ascending order of the cards' `position` field: the word
list is the derivation mapped over a sorted permutation of the flattened
cards, and whenever the positions are strictly increasing along some
arrangement of the flattened cards (in particular when they are distinct),
the sorted card list is exactly that arrangement, independently of the
category grouping. -/
theorem C3_words_follow_position_order :
    ∀ (data : NYTPuzzleResponse) (p : PuzzleData),
      fetchFromNYT (some data) = some p →
      p.words = (sortedCardsOf data).map
        (deriveWord (isPicturePuzzleOf data)) ∧
      (sortedCardsOf data).Perm (allCardsOf data) ∧
      (sortedCardsOf data).Pairwise (fun a b => a.position ≤ b.position) ∧
      ∀ tgt : List NYTCard, (allCardsOf data).Perm tgt →
        tgt.Pairwise (fun a b => a.position < b.position) →
        sortedCardsOf data = tgt := by
  intro data p hp
  refine ⟨?_, List.mergeSort_perm _ _, sortedCardsOf_pairwise data, ?_⟩
  · injection hp with h
    subst h
    rfl
  · intro tgt hperm hs
    exact mergeSort_eq_of_perm_sorted (fun c => c.position) hperm hs

/-- Witness for C3 on the concrete one-card document. -/
theorem C3_witness :
    sortedCardsOf oneCardDoc = [⟨some "solo", none, none, 0⟩] :=
  (C3_words_follow_position_order oneCardDoc
      ⟨2, ⟨2023, 6, 13⟩, ["solo".toUpper], none⟩
      (by
        simp [fetchFromNYT, oneCardDoc, allCardsOf, sortedCardsOf,
          isPicturePuzzleOf, strTruthy, deriveWord, orElseStr]
        decide)).2.2.2
    [⟨some "solo", none, none, 0⟩]
    (by simp [allCardsOf, oneCardDoc])
    (by simp)

/-- C5: the fallback selects the archive entry whose date equals the
requested date when one exists; otherwise, on a nonempty archive, it
selects an entry whose timestamp is maximal (the latest date, even when it
is after the requested date); on an empty archive it fails. -/
theorem C5_entry_selection :
    ∀ (today : CivilDate) (puzzles : List GitHubPuzzle),
      ((∃ e ∈ puzzles, e.date = today) →
        ∃ e, selectEntry today puzzles = some e ∧ e ∈ puzzles ∧
          e.date = today) ∧
      ((∀ e ∈ puzzles, e.date ≠ today) → puzzles ≠ [] →
        ∃ e, selectEntry today puzzles = some e ∧ e ∈ puzzles ∧
          ∀ e' ∈ puzzles, dateTimeMs e'.date ≤ dateTimeMs e.date) ∧
      (puzzles = [] → selectEntry today puzzles = none ∧
        fetchFromGitHub today (some puzzles) = none) := by
  intro today puzzles
  refine ⟨?_, ?_, ?_⟩
  · intro hex
    have hs : (puzzles.find? (fun p => p.date = today)).isSome := by
      rw [List.find?_isSome]
      obtain ⟨e, he, hd⟩ := hex
      exact ⟨e, he, by simp [hd]⟩
    obtain ⟨e, he⟩ := Option.isSome_iff_exists.mp hs
    refine ⟨e, ?_, List.mem_of_find?_eq_some he, ?_⟩
    · simp [selectEntry, he]
    · have := List.find?_some he
      simpa using this
  · intro hnone hne
    have hf : puzzles.find? (fun p => p.date = today) = none := by
      rw [List.find?_eq_none]
      intro x hx
      simp [hnone x hx]
    have hlen : puzzles.length > 0 := List.length_pos.mpr hne
    have hperm : (puzzles.mergeSort
        (fun a b => dateTimeMs b.date ≤ dateTimeMs a.date)).Perm puzzles :=
      List.mergeSort_perm puzzles _
    have hsorted := @List.sorted_mergeSort _
      (fun a b : GitHubPuzzle => dateTimeMs b.date ≤ dateTimeMs a.date)
      (fun a b c hab hbc => by
        simp only [decide_eq_true_eq] at *; omega)
      (fun a b => by
        simp only [Bool.or_eq_true, decide_eq_true_eq]; omega)
      puzzles
    rcases hLc : puzzles.mergeSort
        (fun a b => dateTimeMs b.date ≤ dateTimeMs a.date) with _ | ⟨x, xs⟩
    · rw [hLc] at hperm
      have := hperm.length_eq
      simp at this
      omega
    · rw [hLc] at hperm hsorted
      refine ⟨x, ?_, ?_, ?_⟩
      · simp [selectEntry, hf, hlen, hLc]
      · exact hperm.mem_iff.mp (List.mem_cons_self x xs)
      · intro e' he'
        have he'' : e' ∈ x :: xs := hperm.mem_iff.mpr he'
        rcases List.mem_cons.mp he'' with h | h
        · subst h; exact le_refl _
        · have hx := (List.pairwise_cons.mp hsorted).1 e' h
          simpa using hx
  · intro h
    subst h
    exact ⟨by simp [selectEntry], by simp [fetchFromGitHub, selectEntry]⟩

/-- Witness for C5 on the spec's concrete archive: requested 2023-06-22
with no exact match among 2023-06-12, 2023-06-20, 2023-06-25. -/
theorem C5_witness :
    ∃ e, selectEntry ⟨2023, 6, 22⟩
        [⟨⟨2023, 6, 12⟩, []⟩, ⟨⟨2023, 6, 20⟩, []⟩, ⟨⟨2023, 6, 25⟩, []⟩] =
          some e ∧
      e ∈ [⟨⟨2023, 6, 12⟩, []⟩, ⟨⟨2023, 6, 20⟩, []⟩,
        (⟨⟨2023, 6, 25⟩, []⟩ : GitHubPuzzle)] ∧
      ∀ e' ∈ [⟨⟨2023, 6, 12⟩, []⟩, ⟨⟨2023, 6, 20⟩, []⟩,
          (⟨⟨2023, 6, 25⟩, []⟩ : GitHubPuzzle)],
        dateTimeMs e'.date ≤ dateTimeMs e.date :=
  (C5_entry_selection ⟨2023, 6, 22⟩
      [⟨⟨2023, 6, 12⟩, []⟩, ⟨⟨2023, 6, 20⟩, []⟩, ⟨⟨2023, 6, 25⟩, []⟩]).2.1
    (by decide) (by decide)

/-- A key present after a JavaScript object assignment was present before,
or is the assigned key. -/
theorem mapAssign_keys {m : List (String × String)} {k v x : String}
    (hx : x ∈ (mapAssign m k v).map Prod.fst) :
    x ∈ m.map Prod.fst ∨ x = k := by
  unfold mapAssign at hx
  split at hx
  · rw [List.map_map] at hx
    obtain ⟨p, hp, he⟩ := List.mem_map.mp hx
    by_cases hpk : p.1 = k
    · right
      simp only [Function.comp_apply, hpk, if_pos] at he
      exact he.symm
    · left
      simp only [Function.comp_apply, hpk, if_neg, not_false_iff] at he
      exact List.mem_map.mpr ⟨p, hp, he⟩
  · rw [List.map_append] at hx
    rcases List.mem_append.mp hx with h | h
    · left; exact h
    · right; simpa using h

/-- Every key of the image map built over `cards` (starting from any
accumulator) is an old key or the uppercased alt text of a card with a
truthy image URL and truthy alt text. -/
theorem buildImageMap_keys_aux (cards : List NYTCard)
    (m0 : List (String × String)) (x : String)
    (hx : x ∈ (cards.foldl
      (fun m card =>
        if strTruthy card.image_url ∧ strTruthy card.image_alt_text then
          mapAssign m (card.image_alt_text.getD "").toUpper
            (card.image_url.getD "")
        else m) m0).map Prod.fst) :
    x ∈ m0.map Prod.fst ∨
      ∃ c ∈ cards, strTruthy c.image_url ∧ strTruthy c.image_alt_text ∧
        x = (c.image_alt_text.getD "").toUpper := by
  induction cards generalizing m0 with
  | nil => exact Or.inl hx
  | cons c cs ih =>
    rw [List.foldl_cons] at hx
    rcases ih _ hx with h | ⟨c', hc', h1, h2, h3⟩
    · by_cases hc : strTruthy c.image_url ∧ strTruthy c.image_alt_text
      · rw [if_pos hc] at h
        rcases mapAssign_keys h with h' | h'
        · exact Or.inl h'
        · exact Or.inr ⟨c, List.mem_cons_self c cs, hc.1, hc.2, h'⟩
      · rw [if_neg hc] at h
        exact Or.inl h
    · exact Or.inr ⟨c', List.mem_cons_of_mem c hc', h1, h2, h3⟩

/-- C7: when at least one card of the document carries a (truthy) image
reference, the produced puzzle has an `imageMap` and every key of that map
is a member of `words`; when no card does, `imageMap` is absent. -/
theorem C7_imageMap_keys_in_words :
    ∀ (data : NYTPuzzleResponse) (p : PuzzleData),
      fetchFromNYT (some data) = some p →
      ((∃ c ∈ allCardsOf data, strTruthy c.image_url) →
        ∃ m, p.imageMap = some m ∧ ∀ k ∈ m.map Prod.fst, k ∈ p.words) ∧
      ((∀ c ∈ allCardsOf data, ¬ strTruthy c.image_url) →
        p.imageMap = none) := by
  intro data p hp
  injection hp with h
  subst h
  constructor
  · intro hex
    have hpic : isPicturePuzzleOf data = true := by
      rw [isPicturePuzzleOf, List.any_eq_true]
      obtain ⟨c, hc, hc'⟩ := hex
      exact ⟨c, by
        rw [sortedCardsOf, List.mem_mergeSort]; exact hc, hc'⟩
    refine ⟨buildImageMap (sortedCardsOf data), by simp [hpic], ?_⟩
    intro k hk
    rcases buildImageMap_keys_aux (sortedCardsOf data) [] k hk with h | h
    · simp at h
    · obtain ⟨c, hc, h1, h2, h3⟩ := h
      simp only [hpic]
      have hw : deriveWord true c = k := by
        rw [deriveWord, if_pos ⟨rfl, h2⟩, h3]
      rw [← hw]
      exact List.mem_map_of_mem (deriveWord true) hc
  · intro hall
    have hpic : isPicturePuzzleOf data = false := by
      rw [isPicturePuzzleOf]
      rw [Bool.eq_false_iff]
      intro hany
      rw [List.any_eq_true] at hany
      obtain ⟨c, hc, hc'⟩ := hany
      exact hall c (by rwa [sortedCardsOf, List.mem_mergeSort] at hc) hc'
    simp [hpic]

/-- Witness for C7 on the concrete one-picture-card document. -/
theorem C7_witness :
    ∃ m, (⟨2, ⟨2023, 6, 13⟩, ["cat".toUpper],
        some [("cat".toUpper, "u1")]⟩ : PuzzleData).imageMap = some m ∧
      ∀ k ∈ m.map Prod.fst,
        k ∈ (⟨2, ⟨2023, 6, 13⟩, ["cat".toUpper],
          some [("cat".toUpper, "u1")]⟩ : PuzzleData).words :=
  (C7_imageMap_keys_in_words picDoc
      ⟨2, ⟨2023, 6, 13⟩, ["cat".toUpper], some [("cat".toUpper, "u1")]⟩
      (by
        simp [fetchFromNYT, picDoc, allCardsOf, sortedCardsOf,
          isPicturePuzzleOf, strTruthy, deriveWord, orElseStr,
          buildImageMap, mapAssign]
        decide)).1
    (by decide)

/-- C4: for four answer groups at levels 1–4 (in any input order), the
fallback sorts them ascending by level and interleaves by row index:
row 0 of each group in level order, then row 1, row 2, row 3 — all
uppercased. -/
theorem C4_fallback_interleaving :
    ∀ (answers : List GitHubAnswer) (gA gB gC gD : String)
      (a0 a1 a2 a3 b0 b1 b2 b3 c0 c1 c2 c3 d0 d1 d2 d3 : String),
      answers.Perm
        [⟨1, gA, [a0, a1, a2, a3]⟩, ⟨2, gB, [b0, b1, b2, b3]⟩,
         ⟨3, gC, [c0, c1, c2, c3]⟩, ⟨4, gD, [d0, d1, d2, d3]⟩] →
      (∀ w ∈ [a0, a1, a2, a3, b0, b1, b2, b3, c0, c1, c2, c3,
          d0, d1, d2, d3], w ≠ "") →
      buildGitHubWords answers =
        [a0.toUpper, b0.toUpper, c0.toUpper, d0.toUpper,
         a1.toUpper, b1.toUpper, c1.toUpper, d1.toUpper,
         a2.toUpper, b2.toUpper, c2.toUpper, d2.toUpper,
         a3.toUpper, b3.toUpper, c3.toUpper, d3.toUpper] := by
  intro answers gA gB gC gD a0 a1 a2 a3 b0 b1 b2 b3 c0 c1 c2 c3
    d0 d1 d2 d3 hperm hw
  have hsort : answers.mergeSort (fun a b => a.level ≤ b.level) =
      [⟨1, gA, [a0, a1, a2, a3]⟩, ⟨2, gB, [b0, b1, b2, b3]⟩,
       ⟨3, gC, [c0, c1, c2, c3]⟩, ⟨4, gD, [d0, d1, d2, d3]⟩] := by
    refine mergeSort_eq_of_perm_sorted (fun a => a.level) hperm ?_
    simp [List.pairwise_cons]
  simp only [List.mem_cons, List.mem_singleton, forall_eq_or_imp,
    forall_eq] at hw
  obtain ⟨ha0, ha1, ha2, ha3, hb0, hb1, hb2, hb3, hc0, hc1, hc2, hc3,
    hd0, hd1, hd2, hd3⟩ := hw
  simp only [buildGitHubWords, hsort]
  have hrange : List.range 4 = [0, 1, 2, 3] := rfl
  rw [hrange]
  simp [List.filterMap_cons, List.getD, ha0, ha1, ha2, ha3, hb0, hb1,
    hb2, hb3, hc0, hc1, hc2, hc3, hd0, hd1, hd2, hd3]

/-- Witness for C4 on concrete groups given in scrambled level order. -/
theorem C4_witness :
    buildGitHubWords
        [⟨3, "gc", ["c1", "c2", "c3", "c4"]⟩,
         ⟨1, "ga", ["a1", "a2", "a3", "a4"]⟩,
         ⟨4, "gd", ["d1", "d2", "d3", "d4"]⟩,
         ⟨2, "gb", ["b1", "b2", "b3", "b4"]⟩] =
      ["a1".toUpper, "b1".toUpper, "c1".toUpper, "d1".toUpper,
       "a2".toUpper, "b2".toUpper, "c2".toUpper, "d2".toUpper,
       "a3".toUpper, "b3".toUpper, "c3".toUpper, "d3".toUpper,
       "a4".toUpper, "b4".toUpper, "c4".toUpper, "d4".toUpper] :=
  C4_fallback_interleaving
    [⟨3, "gc", ["c1", "c2", "c3", "c4"]⟩,
     ⟨1, "ga", ["a1", "a2", "a3", "a4"]⟩,
     ⟨4, "gd", ["d1", "d2", "d3", "d4"]⟩,
     ⟨2, "gb", ["b1", "b2", "b3", "b4"]⟩]
    "ga" "gb" "gc" "gd"
    "a1" "a2" "a3" "a4" "b1" "b2" "b3" "b4"
    "c1" "c2" "c3" "c4" "d1" "d2" "d3" "d4"
    (by decide) (by decide)

/-- C10: when an answer group of the selected archive entry is missing a
member at some row index (a members array shorter than 4) or has an empty
string there, the fallback does not fail: it skips that slot and returns a
puzzle whose `words` sequence has fewer than 16 elements (here 15). -/
theorem C10_fallback_skips_missing_slots :
    ∀ (today : CivilDate) (gA gB gC gD : String)
      (a0 a1 a2 a3 b0 b1 b2 b3 c0 c1 c2 c3 d0 d1 d2 : String),
      (∀ w ∈ [a0, a1, a2, a3, b0, b1, b2, b3, c0, c1, c2, c3,
          d0, d1, d2], w ≠ "") →
      (fetchFromGitHub today (some [⟨today,
          [⟨1, gA, [a0, a1, a2, a3]⟩, ⟨2, gB, [b0, b1, b2, b3]⟩,
           ⟨3, gC, [c0, c1, c2, c3]⟩, ⟨4, gD, [d0, d1, d2]⟩]⟩]) =
        some ⟨calculatePuzzleNumber today, today,
          [a0.toUpper, b0.toUpper, c0.toUpper, d0.toUpper,
           a1.toUpper, b1.toUpper, c1.toUpper, d1.toUpper,
           a2.toUpper, b2.toUpper, c2.toUpper, d2.toUpper,
           a3.toUpper, b3.toUpper, c3.toUpper], none⟩) ∧
      (fetchFromGitHub today (some [⟨today,
          [⟨1, gA, [a0, a1, a2, a3]⟩, ⟨2, gB, [b0, b1, b2, b3]⟩,
           ⟨3, gC, [c0, c1, c2, c3]⟩, ⟨4, gD, [d0, d1, d2, ""]⟩]⟩]) =
        some ⟨calculatePuzzleNumber today, today,
          [a0.toUpper, b0.toUpper, c0.toUpper, d0.toUpper,
           a1.toUpper, b1.toUpper, c1.toUpper, d1.toUpper,
           a2.toUpper, b2.toUpper, c2.toUpper, d2.toUpper,
           a3.toUpper, b3.toUpper, c3.toUpper], none⟩) ∧
      ([a0.toUpper, b0.toUpper, c0.toUpper, d0.toUpper,
        a1.toUpper, b1.toUpper, c1.toUpper, d1.toUpper,
        a2.toUpper, b2.toUpper, c2.toUpper, d2.toUpper,
        a3.toUpper, b3.toUpper, c3.toUpper] : List String).length = 15 := by
  intro today gA gB gC gD a0 a1 a2 a3 b0 b1 b2 b3 c0 c1 c2 c3 d0 d1 d2 hw
  simp only [List.mem_cons, List.mem_singleton, forall_eq_or_imp,
    forall_eq] at hw
  obtain ⟨ha0, ha1, ha2, ha3, hb0, hb1, hb2, hb3, hc0, hc1, hc2, hc3,
    hd0, hd1, hd2⟩ := hw
  refine ⟨?_, ?_, rfl⟩
  · have hsel : selectEntry today [⟨today,
        [⟨1, gA, [a0, a1, a2, a3]⟩, ⟨2, gB, [b0, b1, b2, b3]⟩,
         ⟨3, gC, [c0, c1, c2, c3]⟩, ⟨4, gD, [d0, d1, d2]⟩]⟩] =
        some ⟨today,
          [⟨1, gA, [a0, a1, a2, a3]⟩, ⟨2, gB, [b0, b1, b2, b3]⟩,
           ⟨3, gC, [c0, c1, c2, c3]⟩, ⟨4, gD, [d0, d1, d2]⟩]⟩ := by
      simp [selectEntry, List.find?_cons]
    simp only [fetchFromGitHub, hsel]
    have hsort : ([⟨1, gA, [a0, a1, a2, a3]⟩, ⟨2, gB, [b0, b1, b2, b3]⟩,
        ⟨3, gC, [c0, c1, c2, c3]⟩,
        (⟨4, gD, [d0, d1, d2]⟩ : GitHubAnswer)] :
          List GitHubAnswer).mergeSort (fun a b => a.level ≤ b.level) =
        [⟨1, gA, [a0, a1, a2, a3]⟩, ⟨2, gB, [b0, b1, b2, b3]⟩,
         ⟨3, gC, [c0, c1, c2, c3]⟩, ⟨4, gD, [d0, d1, d2]⟩] := by
      apply List.mergeSort_of_sorted
      simp [List.pairwise_cons]
    simp only [buildGitHubWords, hsort]
    have hrange : List.range 4 = [0, 1, 2, 3] := rfl
    rw [hrange]
    simp [List.filterMap_cons, List.getD, ha0, ha1, ha2, ha3, hb0, hb1,
      hb2, hb3, hc0, hc1, hc2, hc3, hd0, hd1, hd2]
  · have hsel : selectEntry today [⟨today,
        [⟨1, gA, [a0, a1, a2, a3]⟩, ⟨2, gB, [b0, b1, b2, b3]⟩,
         ⟨3, gC, [c0, c1, c2, c3]⟩, ⟨4, gD, [d0, d1, d2, ""]⟩]⟩] =
        some ⟨today,
          [⟨1, gA, [a0, a1, a2, a3]⟩, ⟨2, gB, [b0, b1, b2, b3]⟩,
           ⟨3, gC, [c0, c1, c2, c3]⟩, ⟨4, gD, [d0, d1, d2, ""]⟩]⟩ := by
      simp [selectEntry, List.find?_cons]
    simp only [fetchFromGitHub, hsel]
    have hsort : ([⟨1, gA, [a0, a1, a2, a3]⟩, ⟨2, gB, [b0, b1, b2, b3]⟩,
        ⟨3, gC, [c0, c1, c2, c3]⟩,
        (⟨4, gD, [d0, d1, d2, ""]⟩ : GitHubAnswer)] :
          List GitHubAnswer).mergeSort (fun a b => a.level ≤ b.level) =
        [⟨1, gA, [a0, a1, a2, a3]⟩, ⟨2, gB, [b0, b1, b2, b3]⟩,
         ⟨3, gC, [c0, c1, c2, c3]⟩, ⟨4, gD, [d0, d1, d2, ""]⟩] := by
      apply List.mergeSort_of_sorted
      simp [List.pairwise_cons]
    simp only [buildGitHubWords, hsort]
    have hrange : List.range 4 = [0, 1, 2, 3] := rfl
    rw [hrange]
    simp [List.filterMap_cons, List.getD, ha0, ha1, ha2, ha3, hb0, hb1,
      hb2, hb3, hc0, hc1, hc2, hc3, hd0, hd1, hd2]

/-- Witness for C10 at concrete member strings. -/
theorem C10_witness :
    fetchFromGitHub ⟨2023, 6, 13⟩ (some [⟨⟨2023, 6, 13⟩,
        [⟨1, "ga", ["a1", "a2", "a3", "a4"]⟩,
         ⟨2, "gb", ["b1", "b2", "b3", "b4"]⟩,
         ⟨3, "gc", ["c1", "c2", "c3", "c4"]⟩,
         ⟨4, "gd", ["d1", "d2", "d3"]⟩]⟩]) =
      some ⟨calculatePuzzleNumber ⟨2023, 6, 13⟩, ⟨2023, 6, 13⟩,
        ["a1".toUpper, "b1".toUpper, "c1".toUpper, "d1".toUpper,
         "a2".toUpper, "b2".toUpper, "c2".toUpper, "d2".toUpper,
         "a3".toUpper, "b3".toUpper, "c3".toUpper, "d3".toUpper,
         "a4".toUpper, "b4".toUpper, "c4".toUpper], none⟩ :=
  (C10_fallback_skips_missing_slots ⟨2023, 6, 13⟩ "ga" "gb" "gc" "gd"
    "a1" "a2" "a3" "a4" "b1" "b2" "b3" "b4" "c1" "c2" "c3" "c4"
    "d1" "d2" "d3" (by decide)).1
